import Mathlib

/-!
Verification of the systemd-dissect orchestration layer (src/dissect/dissect.c).

The development shallowly embeds the argument handling (`parse_argv`), the
resource-chain orchestration of `run` (loop device, decryption mapping, mount,
with C `_cleanup_` teardown semantics made explicit as an event trace), the
verity-descriptor resolution call site, and the two transfer-engine directions
(`--copy-from`, `--copy-to`).  External collaborators that are not part of this
repository slice (the confined path walker `chase_symlinks`, the hex/base64
decoders `unhexmem`/`unbase64mem`, `verity_metadata_load`) are modelled from the
specification and are marked as such in their doc comments.
-/

/-- Error taxonomy of the tool, as distinguished by the distinct error returns
and log messages in dissect.c. -/
inductive Err where
  | argError
  | resourceAcq
  | fsckFailed
  | mountFailed
  | relinquishFailed
  | metadataFailed
  | confinementViolation
  | tooManyLinks
  | sourceOpenFailed
  | copyFailed
  | destinationExists
  | destinationNotDir
  | unsupportedSource
  | transferError
  deriving DecidableEq, Repr

/-- Decidable equality for `Except`, used to evaluate run results. -/
instance {e a : Type} [DecidableEq e] [DecidableEq a] : DecidableEq (Except e a)
  | Except.error x, Except.error y =>
      if h : x = y then isTrue (congrArg Except.error h)
      else isFalse (fun hh => h (Except.error.inj hh))
  | Except.error _, Except.ok _ => isFalse (fun hh => Except.noConfusion hh)
  | Except.ok _, Except.error _ => isFalse (fun hh => Except.noConfusion hh)
  | Except.ok x, Except.ok y =>
      if h : x = y then isTrue (congrArg Except.ok h)
      else isFalse (fun hh => h (Except.ok.inj hh))

/-- A path inside the image, as a list of components. -/
abbrev FPath := List String

/-- A node of the modelled image filesystem: a regular file, a directory, or a
symlink whose target is absolute (leading slash) or relative. -/
inductive FsNode where
  | file
  | dir
  | symlink (absolute : Bool) (target : FPath)
  deriving DecidableEq, Repr

/-- The modelled image filesystem: a finite map from root-relative paths to
nodes. -/
abbrev FsMap := List (FPath × FsNode)

/-- Look a path up in the modelled filesystem. -/
def lookupFs (fs : FsMap) (p : FPath) : Option FsNode :=
  (fs.find? (fun e => e.1 == p)).map (·.2)

/-- Modelled from the spec: the confined path resolver (`chase_symlinks` with
`CHASE_PREFIX_ROOT`, called at dissect.c:497 for the extract source and
dissect.c:550 for the inject destination parent; its implementation lives
outside this repository slice).  `R` is the host path of the mount root,
`cur` the root-relative position reached so far, and the last argument the
components still to walk.  Resolution walks component by component with a
bounded hop budget; a symlink with an absolute target restarts the walk at the
mount root (never at the host root); climbing above the mount root via `..`
is a confinement violation.  On success the returned handle is the host path
`R ++ cur`. -/
def chase (fs : FsMap) (R : FPath) : Nat → FPath → List String → Except Err FPath
  | 0, _, _ => Except.error Err.tooManyLinks
  | _ + 1, cur, [] => Except.ok (R ++ cur)
  | fuel + 1, cur, comp :: rest =>
      if comp = "." then chase fs R fuel cur rest
      else if comp = ".." then
        match cur with
        | [] => Except.error Err.confinementViolation
        | _ :: _ => chase fs R fuel cur.dropLast rest
      else
        match lookupFs fs (cur ++ [comp]) with
        | some (FsNode.symlink true t) => chase fs R fuel [] (t ++ rest)
        | some (FsNode.symlink false t) => chase fs R fuel cur (t ++ rest)
        | _ => chase fs R fuel (cur ++ [comp]) rest

/-- A handle is beneath the mount root `R` when its host path starts with
`R`. -/
def beneath (R h : FPath) : Prop := h.take R.length = R

theorem chase_ok_beneath (fs : FsMap) (R : FPath) :
    ∀ fuel cur p h, chase fs R fuel cur p = Except.ok h → beneath R h := by
  intro fuel
  induction fuel with
  | zero =>
      intro cur p h hc
      simp [chase] at hc
  | succ n ih =>
      intro cur p h hc
      cases p with
      | nil =>
          simp only [chase] at hc
          cases hc
          simp [beneath, List.take_left]
      | cons c rest =>
          simp only [chase] at hc
          split at hc
          · exact ih _ _ _ hc
          · split at hc
            · split at hc
              · cases hc
              · exact ih _ _ _ hc
            · split at hc
              · exact ih _ _ _ hc
              · exact ih _ _ _ hc
              · exact ih _ _ _ hc

/-- C1: every resolution inside the mounted image root resolves symlinks
relative to the mount root, never the host root, and a resolution that would
climb outside the mount root fails with a confinement violation instead of
returning a handle.  Conjuncts: (1) any handle the resolver returns is beneath
the mount root; (2) a symlink with an absolute target is chased from the mount
root (so `/etc/passwd` inside the image resolves under `R`, not on the host);
(3) a walk that would climb above the mount root yields
`Err.confinementViolation`. -/
theorem chase_confinement :
    (∀ fs R fuel p h, chase fs R fuel [] p = Except.ok h → beneath R h)
    ∧ (∀ fs R fuel c t rest, c ≠ "." → c ≠ ".." →
        lookupFs fs [c] = some (FsNode.symlink true t) →
        chase fs R (fuel + 1) [] (c :: rest) = chase fs R fuel [] (t ++ rest))
    ∧ (∀ fs R fuel rest,
        chase fs R (fuel + 1) [] (".." :: rest) = Except.error Err.confinementViolation) := by
  refine ⟨fun fs R fuel p h hc => chase_ok_beneath fs R fuel [] p h hc, ?_, ?_⟩
  · intro fs R fuel c t rest hdot hdotdot hl
    simp [chase, hdot, hdotdot, hl]
  · intro fs R fuel rest
    simp [chase]

/-- A concrete image filesystem with a symlink `lnk` whose target is the
absolute path `/etc/passwd`, and one with target `/..`. -/
def fsEx : FsMap :=
  [(["lnk"], FsNode.symlink true ["etc", "passwd"]),
   (["esc"], FsNode.symlink true [".."]),
   (["etc"], FsNode.dir),
   (["etc", "passwd"], FsNode.file)]

theorem chase_confinement_witness :
    beneath ["mnt"] ["mnt", "etc", "passwd"]
    ∧ chase fsEx ["mnt"] 9 [] ["lnk"] = chase fsEx ["mnt"] 8 [] ["etc", "passwd"]
    ∧ chase fsEx ["mnt"] 7 [] [".."] = Except.error Err.confinementViolation :=
  ⟨chase_confinement.1 fsEx ["mnt"] 9 ["lnk"] ["mnt", "etc", "passwd"] rfl,
   chase_confinement.2.1 fsEx ["mnt"] 8 "lnk" ["etc", "passwd"] [] (by decide) (by decide)
     rfl,
   chase_confinement.2.2 fsEx ["mnt"] 6 []⟩

/-- The three leases of the resource chain acquired by `run`
(dissect.c:317-321): the loop device, the decryption/verity mapping, and the
mount. -/
inductive Res where
  | loopDev
  | decryptMap
  | mountFs
  deriving DecidableEq, Repr

/-- Observable events of a run: lease acquisition, lease teardown, lease
relinquishing, and printing the partition summary (inspect action). -/
inductive Ev where
  | acq (s : Res)
  | down (s : Res)
  | rel (s : Res)
  | summary
  deriving DecidableEq, Repr

/-- Outcomes of the external calls `run` makes, so that every execution of
`run` corresponds to one value of this record. -/
structure RunEnv where
  loopOk : Bool
  verityOk : Bool
  dissectOk : Bool
  metadataOk : Bool
  needsDecrypt : Bool
  decryptOk : Bool
  nsOk : Bool
  tempOk : Bool
  mkdirOk : Bool
  mountOk : Bool
  euclean : Bool
  diRelinquishOk : Bool
  transferOk : Bool
  deriving DecidableEq, Repr

/-- Enumeration helper: `RunEnv` is equivalent to a product of booleans. -/
def runEnvEquiv :
    (Bool × Bool × Bool × Bool × Bool × Bool × Bool × Bool × Bool × Bool × Bool × Bool ×
      Bool) ≃ RunEnv where
  toFun t :=
    ⟨t.1, t.2.1, t.2.2.1, t.2.2.2.1, t.2.2.2.2.1, t.2.2.2.2.2.1, t.2.2.2.2.2.2.1,
     t.2.2.2.2.2.2.2.1, t.2.2.2.2.2.2.2.2.1, t.2.2.2.2.2.2.2.2.2.1, t.2.2.2.2.2.2.2.2.2.2.1,
     t.2.2.2.2.2.2.2.2.2.2.2.1, t.2.2.2.2.2.2.2.2.2.2.2.2⟩
  invFun e :=
    ⟨e.loopOk, e.verityOk, e.dissectOk, e.metadataOk, e.needsDecrypt, e.decryptOk, e.nsOk,
     e.tempOk, e.mkdirOk, e.mountOk, e.euclean, e.diRelinquishOk, e.transferOk⟩
  left_inv _ := rfl
  right_inv _ := rfl

instance : Fintype RunEnv := Fintype.ofEquiv _ runEnvEquiv

/-- The `_cleanup_`-tracked lease variables of `run` at the moment it returns:
`d` (loop device, dissect.c:318), `di` (decrypted image, dissect.c:319) and,
in the copy branch, `mounted_dir` (dissect.c:450).  `none` means never
acquired; `some b` means acquired, with `b` true once relinquished. -/
structure Leases where
  d : Option Bool := none
  di : Option Bool := none
  mnt : Option Bool := none
  deriving DecidableEq, Repr

/-- The four actions of dissect.c:34-39. -/
inductive Act where
  | dissect
  | mount
  | copyFrom
  | copyTo
  deriving DecidableEq, Repr

/-- The body of `run` (dissect.c:317-616) up to its return statement: result,
final state of the cleanup-tracked lease variables, and the events emitted so
far (acquisitions, relinquishes, the summary print).  Mirrors the source
control flow: loop device setup (line 330), verity metadata load (line 334),
dissection (line 341), then the per-action branch; in the mount action the
mount itself is never tracked by a cleanup variable (it is meant to survive
the process), while in the copy branch the temporary mount is tracked by
`mounted_dir`. -/
def body (a : Act) (e : RunEnv) : Except Err Unit × Leases × List Ev :=
  if !e.loopOk then (Except.error Err.resourceAcq, {}, [])
  else
    let L : Leases := { d := some false }
    let ev := [Ev.acq Res.loopDev]
    if !e.verityOk then (Except.error Err.resourceAcq, L, ev)
    else if !e.dissectOk then (Except.error Err.resourceAcq, L, ev)
    else
      match a with
      | Act.dissect =>
          let ev := ev ++ [Ev.summary]
          if !e.metadataOk then (Except.error Err.metadataFailed, L, ev)
          else (Except.ok (), L, ev)
      | Act.mount =>
          if e.needsDecrypt && !e.decryptOk then (Except.error Err.resourceAcq, L, ev)
          else
            let di0 : Option Bool := if e.needsDecrypt then some false else none
            let ev2 := ev ++ (if e.needsDecrypt then [Ev.acq Res.decryptMap] else [])
            if !e.mountOk then
              (Except.error (if e.euclean then Err.fsckFailed else Err.mountFailed),
               ⟨some false, di0, none⟩, ev2)
            else
              let ev3 := ev2 ++ [Ev.acq Res.mountFs]
              if e.needsDecrypt && !e.diRelinquishOk then
                (Except.error Err.relinquishFailed, ⟨some false, di0, none⟩, ev3)
              else
                let diRel : Option Bool := if e.needsDecrypt then some true else none
                let ev4 := ev3 ++ (if e.needsDecrypt then [Ev.rel Res.decryptMap] else [])
                (Except.ok (), ⟨some true, diRel, none⟩, ev4 ++ [Ev.rel Res.loopDev])
      | Act.copyFrom | Act.copyTo =>
          if e.needsDecrypt && !e.decryptOk then (Except.error Err.resourceAcq, L, ev)
          else
            let di0 : Option Bool := if e.needsDecrypt then some false else none
            let ev2 := ev ++ (if e.needsDecrypt then [Ev.acq Res.decryptMap] else [])
            if !e.nsOk then (Except.error Err.resourceAcq, ⟨some false, di0, none⟩, ev2)
            else if !e.tempOk then (Except.error Err.resourceAcq, ⟨some false, di0, none⟩, ev2)
            else if !e.mkdirOk then (Except.error Err.resourceAcq, ⟨some false, di0, none⟩, ev2)
            else if !e.mountOk then
              (Except.error (if e.euclean then Err.fsckFailed else Err.mountFailed),
               ⟨some false, di0, none⟩, ev2)
            else
              let ev3 := ev2 ++ [Ev.acq Res.mountFs]
              if e.needsDecrypt && !e.diRelinquishOk then
                (Except.error Err.relinquishFailed, ⟨some false, di0, some false⟩, ev3)
              else
                let diRel : Option Bool := if e.needsDecrypt then some true else none
                let ev4 := ev3 ++ (if e.needsDecrypt then [Ev.rel Res.decryptMap] else []) ++
                  [Ev.rel Res.loopDev]
                if !e.transferOk then
                  (Except.error Err.transferError, ⟨some true, diRel, some false⟩, ev4)
                else (Except.ok (), ⟨some true, diRel, some false⟩, ev4)

/-- The teardown the C `_cleanup_` attributes run when `run` returns:
reverse declaration order, so `mounted_dir` (inner scope), then `di`, then
`d`; a relinquished lease is skipped (its kernel resource stays alive). -/
def cleanupTrace (L : Leases) : List Ev :=
  (match L.mnt with | some false => [Ev.down Res.mountFs] | _ => []) ++
  (match L.di with | some false => [Ev.down Res.decryptMap] | _ => []) ++
  (match L.d with | some false => [Ev.down Res.loopDev] | _ => [])

/-- A full execution of `run`: its result together with the complete event
trace, the implicit cleanup included. -/
def runModel (a : Act) (e : RunEnv) : Except Err Unit × List Ev :=
  ((body a e).1, (body a e).2.2 ++ cleanupTrace (body a e).2.1)

/-- The leases acquired during a trace, in acquisition order. -/
def acqOf (t : List Ev) : List Res :=
  t.filterMap (fun e => match e with | Ev.acq s => some s | _ => none)

/-- The leases torn down during a trace, in teardown order. -/
def downOf (t : List Ev) : List Res :=
  t.filterMap (fun e => match e with | Ev.down s => some s | _ => none)

/-- The leases relinquished during a trace, in order. -/
def relOf (t : List Ev) : List Res :=
  t.filterMap (fun e => match e with | Ev.rel s => some s | _ => none)

set_option maxHeartbeats 1000000 in
set_option maxRecDepth 10000 in
/-- C2: in every execution of a chain action in which an acquisition step of
the resource chain fails (loop device setup, any step up to and including the
decryption mapping, or the mount), the leases already acquired are torn down
exactly once each, in reverse acquisition order, before the error is returned,
nothing is relinquished, and no lease remains live. -/
theorem acquisition_failure_teardown (a : Act) (e : RunEnv)
    (ha : a = Act.mount ∨ a = Act.copyFrom ∨ a = Act.copyTo)
    (hf : (runModel a e).1 = Except.error Err.resourceAcq ∨
          (runModel a e).1 = Except.error Err.fsckFailed ∨
          (runModel a e).1 = Except.error Err.mountFailed) :
    downOf (runModel a e).2 = (acqOf (runModel a e).2).reverse
    ∧ (acqOf (runModel a e).2).Nodup
    ∧ relOf (runModel a e).2 = [] := by
  obtain ⟨lo, vo, dk, mo, nd, dc, ns, tp, mkd, mt, eu, dr, tr⟩ := e
  rcases ha with rfl | rfl | rfl
  · cases lo <;> try (revert hf; exact of_decide_eq_true rfl)
    all_goals cases vo <;> try (revert hf; exact of_decide_eq_true rfl)
    all_goals cases dk <;> try (revert hf; exact of_decide_eq_true rfl)
    all_goals cases nd <;> try (revert hf; exact of_decide_eq_true rfl)
    all_goals cases dc <;> try (revert hf; exact of_decide_eq_true rfl)
    all_goals cases mt <;> try (revert hf; exact of_decide_eq_true rfl)
    all_goals cases eu <;> try (revert hf; exact of_decide_eq_true rfl)
    all_goals cases dr <;> try (revert hf; exact of_decide_eq_true rfl)
  · cases lo <;> try (revert hf; exact of_decide_eq_true rfl)
    all_goals cases vo <;> try (revert hf; exact of_decide_eq_true rfl)
    all_goals cases dk <;> try (revert hf; exact of_decide_eq_true rfl)
    all_goals cases nd <;> try (revert hf; exact of_decide_eq_true rfl)
    all_goals cases dc <;> try (revert hf; exact of_decide_eq_true rfl)
    all_goals cases ns <;> try (revert hf; exact of_decide_eq_true rfl)
    all_goals cases tp <;> try (revert hf; exact of_decide_eq_true rfl)
    all_goals cases mkd <;> try (revert hf; exact of_decide_eq_true rfl)
    all_goals cases mt <;> try (revert hf; exact of_decide_eq_true rfl)
    all_goals cases eu <;> try (revert hf; exact of_decide_eq_true rfl)
    all_goals cases dr <;> try (revert hf; exact of_decide_eq_true rfl)
    all_goals cases tr <;> try (revert hf; exact of_decide_eq_true rfl)
  · cases lo <;> try (revert hf; exact of_decide_eq_true rfl)
    all_goals cases vo <;> try (revert hf; exact of_decide_eq_true rfl)
    all_goals cases dk <;> try (revert hf; exact of_decide_eq_true rfl)
    all_goals cases nd <;> try (revert hf; exact of_decide_eq_true rfl)
    all_goals cases dc <;> try (revert hf; exact of_decide_eq_true rfl)
    all_goals cases ns <;> try (revert hf; exact of_decide_eq_true rfl)
    all_goals cases tp <;> try (revert hf; exact of_decide_eq_true rfl)
    all_goals cases mkd <;> try (revert hf; exact of_decide_eq_true rfl)
    all_goals cases mt <;> try (revert hf; exact of_decide_eq_true rfl)
    all_goals cases eu <;> try (revert hf; exact of_decide_eq_true rfl)
    all_goals cases dr <;> try (revert hf; exact of_decide_eq_true rfl)
    all_goals cases tr <;> try (revert hf; exact of_decide_eq_true rfl)

/-- A run environment in which decryption is needed and fails. -/
def envDecryptFail : RunEnv :=
  ⟨true, true, true, true, true, false, true, true, true, true, false, true, true⟩

theorem acquisition_failure_teardown_witness :
    downOf (runModel Act.mount envDecryptFail).2 =
      (acqOf (runModel Act.mount envDecryptFail).2).reverse
    ∧ (acqOf (runModel Act.mount envDecryptFail).2).Nodup
    ∧ relOf (runModel Act.mount envDecryptFail).2 = [] :=
  acquisition_failure_teardown Act.mount envDecryptFail (Or.inl rfl) (Or.inl rfl)

/-- C6: every successful run of the mount action relinquishes the acquired
leases (the decryption mapping when present, then the loop device) instead of
tearing them down, so the mount, the mapping and the loop device survive the
process; teardown happens only on failing exits (equivalently, a successful
exit tears nothing down). -/
theorem mount_success_relinquish (e : RunEnv)
    (hs : (runModel Act.mount e).1 = Except.ok ()) :
    downOf (runModel Act.mount e).2 = []
    ∧ relOf (runModel Act.mount e).2 =
        (if e.needsDecrypt then [Res.decryptMap] else []) ++ [Res.loopDev]
    ∧ Res.mountFs ∈ acqOf (runModel Act.mount e).2 := by
  obtain ⟨lo, vo, dk, mo, nd, dc, ns, tp, mkd, mt, eu, dr, tr⟩ := e
  cases lo <;> try (revert hs; exact of_decide_eq_true rfl)
  all_goals cases vo <;> try (revert hs; exact of_decide_eq_true rfl)
  all_goals cases dk <;> try (revert hs; exact of_decide_eq_true rfl)
  all_goals cases nd <;> try (revert hs; exact of_decide_eq_true rfl)
  all_goals cases dc <;> try (revert hs; exact of_decide_eq_true rfl)
  all_goals cases mt <;> try (revert hs; exact of_decide_eq_true rfl)
  all_goals cases eu <;> try (revert hs; exact of_decide_eq_true rfl)
  all_goals cases dr <;> try (revert hs; exact of_decide_eq_true rfl)

/-- A run environment in which every external call succeeds and the image
needs decryption. -/
def envAllOk : RunEnv :=
  ⟨true, true, true, true, true, true, true, true, true, true, false, true, true⟩

theorem mount_success_relinquish_witness :
    downOf (runModel Act.mount envAllOk).2 = []
    ∧ relOf (runModel Act.mount envAllOk).2 =
        (if envAllOk.needsDecrypt then [Res.decryptMap] else []) ++ [Res.loopDev]
    ∧ Res.mountFs ∈ acqOf (runModel Act.mount envAllOk).2 :=
  mount_success_relinquish envAllOk rfl

/-- C7: in the mount action and in both copy actions, a mount failure caused
by a failed filesystem-consistency check (EUCLEAN, dissect.c:434/479) is
reported as `Err.fsckFailed`, distinct from the generic `Err.mountFailed`. -/
theorem mount_euclean_distinct (a : Act) (e : RunEnv)
    (ha : a = Act.mount ∨ a = Act.copyFrom ∨ a = Act.copyTo)
    (h1 : e.loopOk = true) (h2 : e.verityOk = true) (h3 : e.dissectOk = true)
    (h4 : e.needsDecrypt = true → e.decryptOk = true)
    (h5 : e.nsOk = true) (h6 : e.tempOk = true) (h7 : e.mkdirOk = true)
    (h8 : e.mountOk = false) :
    (runModel a e).1 = Except.error (if e.euclean then Err.fsckFailed else Err.mountFailed)
    ∧ Err.fsckFailed ≠ Err.mountFailed := by
  obtain ⟨lo, vo, dk, mo, nd, dc, ns, tp, mkd, mt, eu, dr, tr⟩ := e
  dsimp only at h1 h2 h3 h4 h5 h6 h7 h8 ⊢
  subst h1 h2 h3 h5 h6 h7 h8
  rcases ha with rfl | rfl | rfl <;> cases nd <;>
    (try (have hdc := h4 rfl; subst hdc)) <;> cases eu <;>
    exact of_decide_eq_true rfl

theorem mount_euclean_distinct_witness :
    (runModel Act.mount
        ⟨true, true, true, true, false, true, true, true, true, false, true, true, true⟩).1 =
      Except.error
        (if (⟨true, true, true, true, false, true, true, true, true, false, true, true,
            true⟩ : RunEnv).euclean then Err.fsckFailed else Err.mountFailed)
    ∧ Err.fsckFailed ≠ Err.mountFailed :=
  mount_euclean_distinct Act.mount
    ⟨true, true, true, true, false, true, true, true, true, false, true, true, true⟩
    (Or.inl rfl) rfl rfl rfl (fun h => by cases h) rfl rfl rfl rfl

/-- A run environment in which everything succeeds except metadata
extraction. -/
def envMetaFail : RunEnv :=
  ⟨true, true, true, false, false, true, true, true, true, true, false, true, true⟩

/-- C4 counterexample: the claim says a metadata-extraction failure does not
abort the inspect action and the action still completes successfully; in the
code (dissect.c:391-393) the inspect action returns the metadata error, so at
this concrete input the run result is an error, not success. -/
theorem inspect_metadata_abort_cx :
    (runModel Act.dissect envMetaFail).1 = Except.error Err.metadataFailed
    ∧ (runModel Act.dissect envMetaFail).1 ≠ Except.ok () :=
  of_decide_eq_true rfl

/-- C4 (amended): for every run of the inspect action in which the resource
chain succeeded, a failure of metadata extraction aborts the action with the
metadata error; the partition summary has already been printed at that point,
and the loop device is then torn down by the cleanup. -/
theorem inspect_metadata_abort (e : RunEnv)
    (h1 : e.loopOk = true) (h2 : e.verityOk = true) (h3 : e.dissectOk = true)
    (h4 : e.metadataOk = false) :
    (runModel Act.dissect e).1 = Except.error Err.metadataFailed
    ∧ Ev.summary ∈ (runModel Act.dissect e).2
    ∧ downOf (runModel Act.dissect e).2 = [Res.loopDev] := by
  obtain ⟨lo, vo, dk, mo, nd, dc, ns, tp, mkd, mt, eu, dr, tr⟩ := e
  dsimp only at h1 h2 h3 h4
  subst h1 h2 h3 h4
  exact of_decide_eq_true rfl

theorem inspect_metadata_abort_witness :
    (runModel Act.dissect envMetaFail).1 = Except.error Err.metadataFailed
    ∧ Ev.summary ∈ (runModel Act.dissect envMetaFail).2
    ∧ downOf (runModel Act.dissect envMetaFail).2 = [Res.loopDev] :=
  inspect_metadata_abort envMetaFail rfl rfl rfl rfl

/-- Value of a hex digit character. -/
def hexVal (c : Char) : Option Nat :=
  if '0' ≤ c ∧ c ≤ '9' then some (c.toNat - 48)
  else if 'a' ≤ c ∧ c ≤ 'f' then some (c.toNat - 87)
  else if 'A' ≤ c ∧ c ≤ 'F' then some (c.toNat - 55)
  else none

/-- Modelled from the spec: `unhexmem` (src/basic/hexdecoct.c, outside this
repository slice), the hex decoder called by the `--root-hash=` handler at
dissect.c:198.  It decodes pairs of hex digits into bytes and fails on an
invalid digit or an odd-length string. -/
def unhexmem : List Char → Option (List Nat)
  | [] => some []
  | [_] => none
  | c1 :: c2 :: rest =>
      match hexVal c1, hexVal c2, unhexmem rest with
      | some hi, some lo, some bs => some ((hi * 16 + lo) :: bs)
      | _, _, _ => none

/-- Lowercase hex digit of a nibble. -/
def hexDigit (n : Nat) : Char :=
  if n < 10 then Char.ofNat (48 + n) else Char.ofNat (87 + n)

/-- Lowercase hex encoding of a byte sequence: the denotation relating byte
buffers to the hex strings that denote them. -/
def hexEncode : List Nat → List Char
  | [] => []
  | b :: bs => hexDigit (b / 16) :: hexDigit (b % 16) :: hexEncode bs

/-- The `--root-hash=` handler (dissect.c:194-211): decode the hex argument,
reject a decoded buffer shorter than `sizeof(sd_id128_t)` (16 bytes), and
otherwise store exactly the decoded bytes. -/
def parseRootHash (s : List Char) : Except Err (List Nat) :=
  match unhexmem s with
  | none => Except.error Err.argError
  | some bs => if bs.length < 16 then Except.error Err.argError else Except.ok bs

/-- `run` with the root-hash argument handling made explicit
(dissect.c:326-332): `parse_argv` runs first, and a failure there makes `run`
return before the loop device or anything else is set up. -/
def runWithArgs (a : Act) (hashArg : Option (List Char)) (e : RunEnv) :
    Except Err Unit × List Ev :=
  match hashArg with
  | some s =>
      match parseRootHash s with
      | Except.error er => (Except.error er, [])
      | Except.ok _ => runModel a e
  | none => runModel a e

theorem hexVal_hexDigit : ∀ n, n < 16 → hexVal (hexDigit n) = some n := by
  decide

theorem unhexmem_hexEncode :
    ∀ bs : List Nat, (∀ b ∈ bs, b < 256) → unhexmem (hexEncode bs) = some bs := by
  intro bs
  induction bs with
  | nil => intro _; rfl
  | cons b tl ih =>
      intro hb
      have hb256 : b < 256 := hb b (List.mem_cons_self b tl)
      have hdiv : b / 16 < 16 := by omega
      have hmod : b % 16 < 16 := Nat.mod_lt _ (by norm_num)
      have htl : unhexmem (hexEncode tl) = some tl :=
        ih (fun x hx => hb x (List.mem_cons_of_mem b hx))
      simp only [hexEncode, unhexmem, hexVal_hexDigit _ hdiv, hexVal_hexDigit _ hmod, htl]
      have h16 := Nat.div_add_mod b 16
      have hb16 : b / 16 * 16 + b % 16 = b := by omega
      rw [hb16]

theorem unhexmem_length : ∀ s bs, unhexmem s = some bs → 2 * bs.length = s.length
  | [], bs, h => by
      simp only [unhexmem, Option.some.injEq] at h
      subst h
      rfl
  | [_], bs, h => by
      simp [unhexmem] at h
  | c1 :: c2 :: rest, bs, h => by
      simp only [unhexmem] at h
      cases h1 : hexVal c1 <;> rw [h1] at h
      · exact absurd h (by simp)
      cases h2 : hexVal c2 <;> rw [h2] at h
      · exact absurd h (by simp)
      cases h3 : unhexmem rest <;> rw [h3] at h
      · exact absurd h (by simp)
      next lo tl =>
        simp only [Option.some.injEq] at h
        subst h
        have := unhexmem_length rest tl h3
        simp only [List.length_cons]
        omega

/-- C3: every root-hash argument that is a valid hex string of at least 32
hex characters parses successfully into exactly the bytes it denotes (both
for an arbitrary string the decoder accepts and, round-trip, for the encoding
of any byte buffer of at least 16 bytes);
every argument shorter than 32 characters is rejected with an argument error
during argument handling, and `run` then returns before any loop device,
mapping or mount is acquired (the event trace is empty). -/
theorem root_hash_parsing :
    (∀ s bs, unhexmem s = some bs → 32 ≤ s.length → parseRootHash s = Except.ok bs)
    ∧ (∀ bs : List Nat, (∀ b ∈ bs, b < 256) → 16 ≤ bs.length →
        parseRootHash (hexEncode bs) = Except.ok bs)
    ∧ (∀ s : List Char, s.length < 32 → parseRootHash s = Except.error Err.argError)
    ∧ (∀ a e s, parseRootHash s = Except.error Err.argError →
        runWithArgs a (some s) e = (Except.error Err.argError, [])) := by
  refine ⟨?_, ?_, ?_, ?_⟩
  · intro s bs hdec hlen
    have := unhexmem_length s bs hdec
    have hb : ¬ bs.length < 16 := by omega
    simp [parseRootHash, hdec, hb]
  · intro bs hb hlen
    simp [parseRootHash, unhexmem_hexEncode bs hb, Nat.not_lt.mpr hlen]
  · intro s hs
    cases h : unhexmem s with
    | none => simp [parseRootHash, h]
    | some bs =>
        have := unhexmem_length s bs h
        have : bs.length < 16 := by omega
        simp [parseRootHash, h, this]
  · intro a e s h
    simp [runWithArgs, h]

theorem root_hash_parsing_witness :
    parseRootHash (hexEncode (List.replicate 16 171)) =
      Except.ok (List.replicate 16 171)
    ∧ parseRootHash ['a', 'b'] = Except.error Err.argError
    ∧ runWithArgs Act.mount (some ['a', 'b']) envAllOk =
        (Except.error Err.argError, []) :=
  ⟨root_hash_parsing.2.1 (List.replicate 16 171) (by decide) (by decide),
   root_hash_parsing.2.2.1 ['a', 'b'] (by decide),
   root_hash_parsing.2.2.2 Act.mount envAllOk ['a', 'b']
     (root_hash_parsing.2.2.1 ['a', 'b'] (by decide))⟩

/-- The verity material supplied on the command line: root hash bytes,
external hash-tree data path, signature file path, inline signature bytes
(dissect.c:45-50). -/
structure VerityArgs where
  rootHash : Option (List Nat)
  verityData : Option (List Char)
  sigPath : Option (List Char)
  sigBytes : Option (List Nat)
  deriving DecidableEq, Repr

/-- The verity material discoverable from metadata carried alongside or
inside the image. -/
structure VerityMeta where
  rootHash : Option (List Nat)
  verityData : Option (List Char)
  sigPath : Option (List Char)
  deriving DecidableEq, Repr

/-- The verity-resolution call site (dissect.c:334-339): `run` passes NULL
out-parameters for every field the caller already supplied
(`arg_root_hash ? NULL : &arg_root_hash`, likewise for the data path, and for
the signature path when either signature form is present), so those fields
cannot be written; the behaviour of `verity_metadata_load` itself (it fills
exactly the non-NULL out-parameters it is given; its code is outside this
repository slice) is modelled from the spec. -/
def resolveVerity (a : VerityArgs) (meta : VerityMeta) : VerityArgs :=
  { rootHash := if a.rootHash.isSome then a.rootHash else meta.rootHash
    verityData := if a.verityData.isSome then a.verityData else meta.verityData
    sigPath := if a.sigPath.isSome || a.sigBytes.isSome then a.sigPath else meta.sigPath
    sigBytes := a.sigBytes }

/-- C5: verity resolution never overwrites a field the caller supplied (root
hash, hash-tree data path, signature in either form) and fills from image
metadata only fields that were absent. -/
theorem verity_resolution_frame (a : VerityArgs) (meta : VerityMeta) :
    (∀ h, a.rootHash = some h → (resolveVerity a meta).rootHash = some h)
    ∧ (a.rootHash = none → (resolveVerity a meta).rootHash = meta.rootHash)
    ∧ (∀ p, a.verityData = some p → (resolveVerity a meta).verityData = some p)
    ∧ (a.verityData = none → (resolveVerity a meta).verityData = meta.verityData)
    ∧ (∀ p, a.sigPath = some p → (resolveVerity a meta).sigPath = some p)
    ∧ (a.sigPath = none → a.sigBytes = none → (resolveVerity a meta).sigPath = meta.sigPath)
    ∧ (resolveVerity a meta).sigBytes = a.sigBytes := by
  refine ⟨?_, ?_, ?_, ?_, ?_, ?_, ?_⟩ <;> intros <;> simp_all [resolveVerity]

theorem verity_resolution_frame_witness :
    ((resolveVerity ⟨some [1, 2], none, none, some [3]⟩ ⟨some [9], some ['p'], some ['q']⟩).rootHash
      = some [1, 2])
    ∧ ((resolveVerity ⟨some [1, 2], none, none, some [3]⟩
        ⟨some [9], some ['p'], some ['q']⟩).verityData = some ['p'])
    ∧ ((resolveVerity ⟨some [1, 2], none, none, some [3]⟩
        ⟨some [9], some ['p'], some ['q']⟩).sigBytes = some [3]) :=
  ⟨(verity_resolution_frame ⟨some [1, 2], none, none, some [3]⟩
      ⟨some [9], some ['p'], some ['q']⟩).1 [1, 2] rfl,
   (verity_resolution_frame ⟨some [1, 2], none, none, some [3]⟩
      ⟨some [9], some ['p'], some ['q']⟩).2.2.2.1 rfl,
   (verity_resolution_frame ⟨some [1, 2], none, none, some [3]⟩
      ⟨some [9], some ['p'], some ['q']⟩).2.2.2.2.2.2⟩

/-- The `--copy-from` positional-argument handling (dissect.c:281-291): with
only an image and a source, the target defaults to "-", which means standard
output. -/
def copyFromArgs : List String → Except Err (String × String × String)
  | [img, src] => Except.ok (img, src, "-")
  | [img, src, tgt] => Except.ok (img, src, tgt)
  | _ => Except.error Err.argError

/-- Kind of a transfer source, as classified by `fd_verify_regular` and the
directory-copy fall-through in dissect.c. -/
inductive FKind where
  | regular
  | directory
  | other
  deriving DecidableEq, Repr

/-- Effects the transfer engine performs, in order. -/
inductive TOp where
  | openSrcInImage (h : FPath)
  | resolveParent (h : FPath)
  | openSrcHost
  | streamStdout
  | dirCopy
  | createExclTarget
  | streamTarget
  | propXattr
  | propAccess
  | propTimes
  | propOwner
  deriving DecidableEq, Repr

/-- Outcomes of the external calls of the extract (image-to-host) engine. -/
structure XEnv where
  srcKind : FKind
  tgtExistsNonDir : Bool
  tgtExists : Bool
  dirCopyOk : Bool
  copyOk : Bool
  deriving DecidableEq, Repr

/-- The extract engine (dissect.c:494-537).  The source is opened inside the
image through the confined resolver; a "-" target streams the bytes to
standard output and stops (no attribute propagation); otherwise a directory
copy is attempted first, falling back to exclusive single-file creation with
best-effort propagation of extended attributes, access mode and times, and no
ownership propagation.  The returned list records the effects performed. -/
def copyFromRun (fs : FsMap) (R : FPath) (fuel : Nat) (src : List String) (tgt : String)
    (x : XEnv) : Except Err Unit × List TOp :=
  match chase fs R fuel [] src with
  | Except.error er => (Except.error er, [])
  | Except.ok h =>
      let ops := [TOp.openSrcInImage h]
      if tgt = "-" then
        if x.copyOk then (Except.ok (), ops ++ [TOp.streamStdout])
        else (Except.error Err.copyFailed, ops ++ [TOp.streamStdout])
      else
        match x.srcKind with
        | FKind.directory =>
            if x.tgtExistsNonDir then (Except.error Err.destinationNotDir, ops)
            else if x.dirCopyOk then (Except.ok (), ops ++ [TOp.dirCopy])
            else (Except.error Err.transferError, ops ++ [TOp.dirCopy])
        | FKind.other => (Except.error Err.unsupportedSource, ops)
        | FKind.regular =>
            if x.tgtExists then (Except.error Err.destinationExists, ops)
            else
              let ops2 := ops ++ [TOp.createExclTarget, TOp.streamTarget]
              if x.copyOk then
                (Except.ok (), ops2 ++ [TOp.propXattr, TOp.propAccess, TOp.propTimes])
              else (Except.error Err.copyFailed, ops2)

/-- Split a path into its parent components and final name (`dirname_malloc`
and `basename` at dissect.c:546/556). -/
def splitLast : List String → Option (List String × String)
  | [] => none
  | [x] => some ([], x)
  | x :: y :: xs =>
      match splitLast (y :: xs) with
      | some (p, n) => some (x :: p, n)
      | none => none

/-- Outcomes of the external calls of the inject (host-to-image) engine. -/
structure IEnv where
  srcOpens : Bool
  srcKind : FKind
  tgtExists : Bool
  tgtIsDir : Bool
  copyOk : Bool
  treeCopyOk : Bool
  deriving DecidableEq, Repr

/-- The inject engine (dissect.c:544-607).  The destination's parent directory
is resolved inside the image through the confined resolver; a "-" source
streams standard input into an exclusively created destination; otherwise the
host source is opened and classified: directories are tree-copied (merging
into an existing destination directory), regular files are created
exclusively (an existing destination of that name makes the `openat` with
`O_EXCL` fail with EEXIST, leaving the existing file untouched) and then
extended attributes, access mode and times are propagated best-effort with
`(void)` casts; ownership is never propagated.  The returned list records the
effects performed. -/
def copyToRun (fs : FsMap) (R : FPath) (fuel : Nat) (tgt : List String) (src : String)
    (i : IEnv) : Except Err Unit × List TOp :=
  match splitLast tgt with
  | none => (Except.error Err.argError, [])
  | some (parent, _) =>
      match chase fs R fuel [] parent with
      | Except.error er => (Except.error er, [])
      | Except.ok h =>
          let ops := [TOp.resolveParent h]
          if src = "-" then
            if i.tgtExists then (Except.error Err.destinationExists, ops)
            else if i.copyOk then
              (Except.ok (), ops ++ [TOp.createExclTarget, TOp.streamTarget])
            else (Except.error Err.copyFailed, ops ++ [TOp.createExclTarget, TOp.streamTarget])
          else
            if !i.srcOpens then (Except.error Err.sourceOpenFailed, ops)
            else
              let ops2 := ops ++ [TOp.openSrcHost]
              match i.srcKind with
              | FKind.other => (Except.error Err.unsupportedSource, ops2)
              | FKind.directory =>
                  if i.tgtExists && !i.tgtIsDir then (Except.error Err.destinationNotDir, ops2)
                  else if i.treeCopyOk then (Except.ok (), ops2 ++ [TOp.dirCopy])
                  else (Except.error Err.transferError, ops2 ++ [TOp.dirCopy])
              | FKind.regular =>
                  if i.tgtExists then (Except.error Err.destinationExists, ops2)
                  else
                    let ops3 := ops2 ++ [TOp.createExclTarget, TOp.streamTarget]
                    if i.copyOk then
                      (Except.ok (), ops3 ++ [TOp.propXattr, TOp.propAccess, TOp.propTimes])
                    else (Except.error Err.copyFailed, ops3)

/-- C8: an extract whose destination is the stdout sentinel "-" (explicit, or
defaulted when the target argument is omitted) streams the source's raw bytes
to standard output, performs no attribute propagation and no further transfer
work, and succeeds. -/
theorem extract_stdout :
    (∀ img src, copyFromArgs [img, src] = Except.ok (img, src, "-"))
    ∧ (∀ fs R fuel src h x, chase fs R fuel [] src = Except.ok h → x.copyOk = true →
        copyFromRun fs R fuel src "-" x =
          (Except.ok (), [TOp.openSrcInImage h, TOp.streamStdout])) := by
  refine ⟨fun img src => rfl, ?_⟩
  intro fs R fuel src h x hc hcopy
  simp [copyFromRun, hc, hcopy]

theorem extract_stdout_witness :
    copyFromArgs ["image.raw", "/etc/os-release"] =
      Except.ok ("image.raw", "/etc/os-release", "-")
    ∧ copyFromRun fsEx ["mnt"] 9 ["etc", "passwd"] "-"
        ⟨FKind.regular, false, false, true, true⟩ =
        (Except.ok (), [TOp.openSrcInImage ["mnt", "etc", "passwd"], TOp.streamStdout]) :=
  ⟨extract_stdout.1 "image.raw" "/etc/os-release",
   extract_stdout.2 fsEx ["mnt"] 9 ["etc", "passwd"] ["mnt", "etc", "passwd"]
     ⟨FKind.regular, false, false, true, true⟩ rfl rfl⟩

/-- C9: injecting a regular host file creates the destination exclusively: an
existing destination of that name fails with the distinct destination-exists
error and with no write effect on the existing file; on success, extended
attributes, access mode and modification time are propagated and ownership
never is (no ownership effect appears in any outcome of this
configuration). -/
theorem inject_regular_exclusive (fs : FsMap) (R : FPath) (fuel : Nat) (tgt : List String)
    (src : String) (i : IEnv) (parent : List String) (name : String) (h : FPath)
    (hsplit : splitLast tgt = some (parent, name))
    (hc : chase fs R fuel [] parent = Except.ok h)
    (hsrc : src ≠ "-") (hopen : i.srcOpens = true) (hkind : i.srcKind = FKind.regular) :
    (i.tgtExists = true →
        copyToRun fs R fuel tgt src i =
          (Except.error Err.destinationExists, [TOp.resolveParent h, TOp.openSrcHost]))
    ∧ (i.tgtExists = false → i.copyOk = true →
        copyToRun fs R fuel tgt src i =
          (Except.ok (), [TOp.resolveParent h, TOp.openSrcHost, TOp.createExclTarget,
            TOp.streamTarget, TOp.propXattr, TOp.propAccess, TOp.propTimes]))
    ∧ Err.destinationExists ≠ Err.copyFailed
    ∧ TOp.propOwner ∉ (copyToRun fs R fuel tgt src i).2 := by
  refine ⟨?_, ?_, by decide, ?_⟩
  · intro hex
    simp [copyToRun, hsplit, hc, hsrc, hopen, hkind, hex]
  · intro hex hcopy
    simp [copyToRun, hsplit, hc, hsrc, hopen, hkind, hex, hcopy]
  · cases hex : i.tgtExists <;> cases hcopy : i.copyOk <;>
      simp [copyToRun, hsplit, hc, hsrc, hopen, hkind, hex, hcopy]

theorem inject_regular_exclusive_witness :
    copyToRun fsEx ["mnt"] 9 ["etc", "local.txt"] "./local.txt"
        ⟨true, FKind.regular, true, false, true, true⟩ =
      (Except.error Err.destinationExists,
        [TOp.resolveParent ["mnt", "etc"], TOp.openSrcHost]) :=
  (inject_regular_exclusive fsEx ["mnt"] 9 ["etc", "local.txt"] "./local.txt"
      ⟨true, FKind.regular, true, false, true, true⟩ ["etc"] "local.txt" ["mnt", "etc"]
      rfl rfl (by decide) rfl rfl).1 rfl

/-- Value of a base64 alphabet character. -/
def b64Val (c : Char) : Option Nat :=
  if 'A' ≤ c ∧ c ≤ 'Z' then some (c.toNat - 65)
  else if 'a' ≤ c ∧ c ≤ 'z' then some (c.toNat - 71)
  else if '0' ≤ c ∧ c ≤ '9' then some (c.toNat + 4)
  else if c = '+' then some 62
  else if c = '/' then some 63
  else none

/-- Modelled from the spec: `unbase64mem` (src/basic/hexdecoct.c, outside
this repository slice), the base64 decoder called by the `--root-hash-sig=`
handler at dissect.c:226.  It decodes four-character groups into three bytes,
with `=` padding in the final group. -/
def unbase64mem : List Char → Option (List Nat)
  | [] => some []
  | a :: b :: c :: d :: rest =>
      match b64Val a, b64Val b with
      | some va, some vb =>
          if c = '=' ∧ d = '=' ∧ rest = [] then some [va * 4 + vb / 16]
          else if d = '=' ∧ rest = [] then
            match b64Val c with
            | some vc => some [va * 4 + vb / 16, vb % 16 * 16 + vc / 4]
            | none => none
          else
            match b64Val c, b64Val d, unbase64mem rest with
            | some vc, some vd, some bs =>
                some ((va * 4 + vb / 16) :: (vb % 16 * 16 + vc / 4) :: (vc % 4 * 64 + vd) :: bs)
            | _, _, _ => none
      | _, _ => none
  | _ => none

/-- The two root-hash-signature representations held in the globals
(dissect.c:48-50): inline DER bytes together with their size, or a file
path. -/
structure SigState where
  sigBytes : Option (List Nat)
  sigSize : Nat
  sigPath : Option (List Char)
  deriving DecidableEq, Repr

/-- Initial state of the signature globals: all NULL, size zero. -/
def initSig : SigState := ⟨none, 0, none⟩

/-- Strip the "base64:" marker, the `startswith(optarg, "base64:")` test at
dissect.c:222. -/
def dropMarker : List Char → Option (List Char)
  | 'b' :: 'a' :: 's' :: 'e' :: '6' :: '4' :: ':' :: rest => some rest
  | _ => none

/-- The `--root-hash-sig=` handler (dissect.c:219-242): a "base64:"-prefixed
argument decodes the remainder (a decode failure fails the whole parse),
stores the inline bytes and their size, and frees the path; any other
argument stores the path (the absolutization that
`parse_path_argument_and_warn`, outside this slice, performs is modelled as
storing the argument itself) and frees the inline bytes, resetting the size
to zero. -/
def parseSigArg (arg : List Char) : Except Err SigState :=
  match dropMarker arg with
  | some value =>
      match unbase64mem value with
      | none => Except.error Err.argError
      | some p => Except.ok ⟨some p, p.length, none⟩
  | none => Except.ok ⟨none, 0, some arg⟩

/-- Repeated occurrences of `--root-hash-sig=`, processed left to right as
getopt delivers them. -/
def parseSigArgs (st : SigState) : List (List Char) → Except Err SigState
  | [] => Except.ok st
  | a :: rest =>
      match parseSigArg a with
      | Except.error er => Except.error er
      | Except.ok st2 => parseSigArgs st2 rest

/-- At most one signature representation is present, and the stored size is
the size of the inline bytes (zero when they are absent). -/
def sigExclusive (st : SigState) : Prop :=
  (st.sigBytes = none ∨ st.sigPath = none)
  ∧ st.sigSize = (match st.sigBytes with | some p => p.length | none => 0)

theorem parseSigArg_exclusive (a : List Char) (st : SigState)
    (h : parseSigArg a = Except.ok st) : sigExclusive st := by
  unfold parseSigArg at h
  split at h
  · split at h
    · cases h
    · cases h
      exact ⟨Or.inr rfl, rfl⟩
  · cases h
    exact ⟨Or.inl rfl, rfl⟩

theorem parseSigArgs_exclusive : ∀ args st st', sigExclusive st →
    parseSigArgs st args = Except.ok st' → sigExclusive st'
  | [], st, st', hst, h => by
      unfold parseSigArgs at h
      cases h
      exact hst
  | a :: rest, st, st', hst, h => by
      unfold parseSigArgs at h
      cases hp : parseSigArg a <;> rw [hp] at h
      · cases h
      · exact parseSigArgs_exclusive rest _ st' (parseSigArg_exclusive a _ hp) h

theorem parseSigArgs_last : ∀ args st a st',
    parseSigArgs st (args ++ [a]) = Except.ok st' → parseSigArg a = Except.ok st'
  | [], st, a, st', h => by
      simp only [List.nil_append] at h
      unfold parseSigArgs at h
      cases hp : parseSigArg a <;> rw [hp] at h
      · cases h
      · unfold parseSigArgs at h
        cases h
        rfl
  | x :: rest, st, a, st', h => by
      simp only [List.cons_append] at h
      unfold parseSigArgs at h
      cases hp : parseSigArg x <;> rw [hp] at h
      · cases h
      · exact parseSigArgs_last rest _ a st' h

/-- C10: after the `--root-hash-sig=` handling completes, at most one of the
two signature representations is set.  A "base64:" argument stores the
decoded inline bytes (with their size) and clears the path; a path argument
stores the path and clears the inline bytes, resetting their size to zero;
the exclusivity invariant holds after any successful sequence of occurrences,
and when the option is given several times the last occurrence wins. -/
theorem sig_arg_exclusive :
    (∀ v p, unbase64mem v = some p →
        parseSigArg (['b', 'a', 's', 'e', '6', '4', ':'] ++ v) =
          Except.ok ⟨some p, p.length, none⟩)
    ∧ (∀ a, dropMarker a = none → parseSigArg a = Except.ok ⟨none, 0, some a⟩)
    ∧ (∀ args st', parseSigArgs initSig args = Except.ok st' → sigExclusive st')
    ∧ (∀ args a st', parseSigArgs initSig (args ++ [a]) = Except.ok st' →
        parseSigArg a = Except.ok st') := by
  refine ⟨?_, ?_, ?_, ?_⟩
  · intro v p hd
    simp [parseSigArg, dropMarker, hd]
  · intro a ha
    simp [parseSigArg, ha]
  · intro args st' h
    exact parseSigArgs_exclusive args initSig st' ⟨Or.inl rfl, rfl⟩ h
  · intro args a st' h
    exact parseSigArgs_last args initSig a st' h

theorem sig_arg_exclusive_witness :
    parseSigArg (['b', 'a', 's', 'e', '6', '4', ':'] ++ ['A', 'A', '=', '=']) =
      Except.ok ⟨some [0], 1, none⟩
    ∧ parseSigArg ['/', 'p'] = Except.ok ⟨none, 0, some ['/', 'p']⟩
    ∧ sigExclusive ⟨none, 0, some ['/', 'p']⟩
    ∧ parseSigArg ['/', 'q'] = Except.ok ⟨none, 0, some ['/', 'q']⟩ :=
  ⟨sig_arg_exclusive.1 ['A', 'A', '=', '='] [0] (by rfl),
   sig_arg_exclusive.2.1 ['/', 'p'] rfl,
   sig_arg_exclusive.2.2.1 [['/', 'p']] ⟨none, 0, some ['/', 'p']⟩ rfl,
   sig_arg_exclusive.2.2.2 [['b', 'a', 's', 'e', '6', '4', ':', 'A', 'A', '=', '=']]
     ['/', 'q'] ⟨none, 0, some ['/', 'q']⟩ (by rfl)⟩
